import Mathlib

/-!
# Verification of the aleopath instruction decoder

Shallow embedding of `src/components/instructions.rs`: the opcode table,
the arity-classification slices, the operand/output model, and the
instruction/program decoders.  The byte cursor is modelled as a suffix
list of byte values; fallible reads (including the source's
`unreachable!()` aborts) are modelled with `Except FormatError`.

External collaborators (the raw cursor reads and the `Literal`,
`Register`, identifier and locator decoders) are not part of the
repository source; they are modelled from the spec as self-contained
decoders that consume a fixed or length-prefixed number of bytes and
advance the cursor.
-/

set_option maxRecDepth 8192

namespace Aleopath

deriving instance DecidableEq for Except

/-- Error taxonomy from the spec (section 7); the source expresses each of
these as a fatal `unreachable!()` abort or an out-of-bytes panic. -/
inductive FormatError where
  | UnknownOpcode
  | UnknownOperandTag
  | TruncatedInput
  | InvariantViolation
deriving DecidableEq, Repr

/-- A byte of the input stream, modelled as a natural number. -/
abbrev Byte := Nat

/-- Modelled from the spec: the external byte-cursor primitive `read_u8`;
consumes one byte and advances the cursor. -/
def readU8 : List Byte → Except FormatError (Byte × List Byte)
  | [] => .error .TruncatedInput
  | b :: rest => .ok (b, rest)

/-- Modelled from the spec: the external byte-cursor primitive `read_u16`
(little-endian, two bytes). -/
def readU16 (bs : List Byte) : Except FormatError (Nat × List Byte) := do
  let (b0, bs) ← readU8 bs
  let (b1, bs) ← readU8 bs
  pure (b0 + 256 * b1, bs)

/-- Modelled from the spec: the external byte-cursor primitive `read_u32`
(little-endian, four bytes). -/
def readU32 (bs : List Byte) : Except FormatError (Nat × List Byte) := do
  let (b0, bs) ← readU8 bs
  let (b1, bs) ← readU8 bs
  let (b2, bs) ← readU8 bs
  let (b3, bs) ← readU8 bs
  pure (b0 + 256 * b1 + 65536 * b2 + 16777216 * b3, bs)

/-- Modelled from the spec: consume exactly `n` raw bytes of the cursor
(the body of a length-prefixed field). -/
def readBytes (n : Nat) (bs : List Byte) :
    Except FormatError (List Byte × List Byte) :=
  if n ≤ bs.length then .ok (bs.take n, bs.drop n) else .error .TruncatedInput

/-- Modelled from the spec: an immediate typed value; its decoding detail is
owned by an external collaborator, abstracted here as the raw byte span the
external decoder consumed. -/
structure Literal where
  payload : List Byte
deriving DecidableEq, Repr

/-- Modelled from the spec: `Literal::read`, an external self-contained
decoder consuming a length-prefixed span. -/
def Literal.read (bs : List Byte) :
    Except FormatError (Literal × List Byte) := do
  let (n, bs) ← readU8 bs
  let (p, bs) ← readBytes n bs
  pure (⟨p⟩, bs)

/-- Modelled from the spec: a register reference; decoding detail owned by an
external collaborator, abstracted as the raw byte span it consumed. -/
structure Register where
  payload : List Byte
deriving DecidableEq, Repr

/-- Modelled from the spec: `Register::read`, an external self-contained
decoder consuming a length-prefixed span. -/
def Register.read (bs : List Byte) :
    Except FormatError (Register × List Byte) := do
  let (n, bs) ← readU8 bs
  let (p, bs) ← readBytes n bs
  pure (⟨p⟩, bs)

/-- Modelled from the spec: `util::read_identifier`, an external decoder for
one identifier string (length-prefixed bytes, decoded as characters). -/
def read_identifier (bs : List Byte) :
    Except FormatError (String × List Byte) := do
  let (n, bs) ← readU8 bs
  let (p, bs) ← readBytes n bs
  pure (String.mk (p.map Char.ofNat), bs)

/-- Modelled from the spec: `util::read_locator`, an external decoder for the
three-part external locator (three identifier strings). -/
def read_locator (bs : List Byte) :
    Except FormatError ((String × String × String) × List Byte) := do
  let (a, bs) ← read_identifier bs
  let (b, bs) ← read_identifier bs
  let (c, bs) ← read_identifier bs
  pure ((a, b, c), bs)

/-- The closed enumeration of 56 operation kinds, in source declaration
order. -/
inductive Opcode where
  | Abs
  | AbsWrapped
  | Add
  | AddWrapped
  | And
  | AssertEq
  | AssertNeq
  | Call
  | Cast
  | CommitBHP256
  | CommitBHP512
  | CommitBHP768
  | CommitBHP1024
  | CommitPED64
  | CommitPED128
  | Div
  | DivWrapped
  | Double
  | GreaterThan
  | GreaterThanOrEqual
  | HashBHP256
  | HashBHP512
  | HashBHP768
  | HashBHP1024
  | HashPED64
  | HashPED128
  | HashPSD2
  | HashPSD4
  | HashPSD8
  | Inv
  | IsEq
  | IsNeq
  | LessThan
  | LessThanOrEqual
  | Mod
  | Mul
  | MulWrapped
  | Nand
  | Neg
  | Nor
  | Not
  | Or
  | Pow
  | PowWrapped
  | Rem
  | RemWrapped
  | Shl
  | ShlWrapped
  | Shr
  | ShrWrapped
  | Square
  | SquareRoot
  | Sub
  | SubWrapped
  | Ternary
  | Xor
deriving DecidableEq, Repr, Fintype

/-- Embedding of `impl From<u16> for Opcode`: the tag-to-opcode match with
its `unreachable!()` fall-through arm modelled as a fatal decode error. -/
def Opcode.fromU16 (value : Nat) : Except FormatError Opcode :=
  match value with
  | 0 => .ok .Abs
  | 1 => .ok .AbsWrapped
  | 2 => .ok .Add
  | 3 => .ok .AddWrapped
  | 4 => .ok .And
  | 5 => .ok .AssertEq
  | 6 => .ok .AssertNeq
  | 7 => .ok .Call
  | 8 => .ok .Cast
  | 9 => .ok .CommitBHP256
  | 10 => .ok .CommitBHP512
  | 11 => .ok .CommitBHP768
  | 12 => .ok .CommitBHP1024
  | 13 => .ok .CommitPED64
  | 14 => .ok .CommitPED128
  | 15 => .ok .Div
  | 16 => .ok .DivWrapped
  | 17 => .ok .Double
  | 18 => .ok .GreaterThan
  | 19 => .ok .GreaterThanOrEqual
  | 20 => .ok .HashBHP256
  | 21 => .ok .HashBHP512
  | 22 => .ok .HashBHP768
  | 23 => .ok .HashBHP1024
  | 24 => .ok .HashPED64
  | 25 => .ok .HashPED128
  | 26 => .ok .HashPSD2
  | 27 => .ok .HashPSD4
  | 28 => .ok .HashPSD8
  | 29 => .ok .Inv
  | 30 => .ok .IsEq
  | 31 => .ok .IsNeq
  | 32 => .ok .LessThan
  | 33 => .ok .LessThanOrEqual
  | 34 => .ok .Mod
  | 35 => .ok .Mul
  | 36 => .ok .MulWrapped
  | 37 => .ok .Nand
  | 38 => .ok .Neg
  | 39 => .ok .Nor
  | 40 => .ok .Not
  | 41 => .ok .Or
  | 42 => .ok .Pow
  | 43 => .ok .PowWrapped
  | 44 => .ok .Rem
  | 45 => .ok .RemWrapped
  | 46 => .ok .Shl
  | 47 => .ok .ShlWrapped
  | 48 => .ok .Shr
  | 49 => .ok .ShrWrapped
  | 50 => .ok .Square
  | 51 => .ok .SquareRoot
  | 52 => .ok .Sub
  | 53 => .ok .SubWrapped
  | 54 => .ok .Ternary
  | 55 => .ok .Xor
  | _ => .error .UnknownOpcode

/-- The fixed opcode table in canonical index order (the table the tag
indexes into). -/
def opcodeTable : List Opcode :=
  [.Abs, .AbsWrapped, .Add, .AddWrapped, .And, .AssertEq, .AssertNeq,
   .Call, .Cast, .CommitBHP256, .CommitBHP512, .CommitBHP768,
   .CommitBHP1024, .CommitPED64, .CommitPED128, .Div, .DivWrapped,
   .Double, .GreaterThan, .GreaterThanOrEqual, .HashBHP256, .HashBHP512,
   .HashBHP768, .HashBHP1024, .HashPED64, .HashPED128, .HashPSD2,
   .HashPSD4, .HashPSD8, .Inv, .IsEq, .IsNeq, .LessThan,
   .LessThanOrEqual, .Mod, .Mul, .MulWrapped, .Nand, .Neg, .Nor, .Not,
   .Or, .Pow, .PowWrapped, .Rem, .RemWrapped, .Shl, .ShlWrapped, .Shr,
   .ShrWrapped, .Square, .SquareRoot, .Sub, .SubWrapped, .Ternary, .Xor]

/-- The canonical 16-bit tag of an opcode (its fixed-table index). -/
def Opcode.tag (o : Opcode) : Nat := (opcodeTable.indexOf o)

/-- Embedding of the `UNARY` classification slice, in source order. -/
def UNARY : List Opcode :=
  [.Abs, .AbsWrapped, .Double, .Inv, .Neg, .Not, .Square, .SquareRoot,
   .HashBHP256, .HashBHP512, .HashBHP768, .HashBHP1024, .HashPED64,
   .HashPED128, .HashPSD2, .HashPSD4, .HashPSD8]

/-- Embedding of the `BINARY` classification slice, in source order. -/
def BINARY : List Opcode :=
  [.Add, .AddWrapped, .Sub, .SubWrapped, .Mul, .MulWrapped, .Div,
   .DivWrapped, .Rem, .RemWrapped, .Pow, .PowWrapped, .Shl, .ShlWrapped,
   .Shr, .ShrWrapped, .And, .Xor, .Or, .Nand, .Nor, .GreaterThan,
   .GreaterThanOrEqual, .LessThan, .LessThanOrEqual, .IsEq, .IsNeq,
   .CommitBHP256, .CommitBHP512, .CommitBHP768, .CommitBHP1024,
   .CommitPED64, .CommitPED128, .Mod]

/-- Embedding of the `ASSERT` classification slice. -/
def ASSERT : List Opcode := [.AssertEq, .AssertNeq]

/-- Embedding of the (unused) `IS_CHECK` slice. -/
def IS_CHECK : List Opcode := [.IsEq, .IsNeq]

/-- Embedding of `Locator`: an internal identifier or an external
three-part locator. -/
inductive Locator where
  | Internal (s : String)
  | External (t : String × String × String)
deriving DecidableEq, Repr

/-- Embedding of `Operand`: the tagged union of instruction inputs. -/
inductive Operand where
  | Literal (l : Literal)
  | Register (r : Register)
  | ProgramId (l : Locator)
  | Caller
deriving DecidableEq, Repr

/-- Embedding of `Operand::read`: one discriminant byte selects the
variant; an unknown discriminant is the source's `unreachable!()` abort. -/
def Operand.read (bs : List Byte) :
    Except FormatError (Operand × List Byte) := do
  let (tag, bs) ← readU8 bs
  match tag with
  | 0 => do
    let (l, bs) ← Literal.read bs
    pure (.Literal l, bs)
  | 1 => do
    let (r, bs) ← Register.read bs
    pure (.Register r, bs)
  | 2 => do
    let (t, bs) ← read_locator bs
    pure (.ProgramId (.External t), bs)
  | 3 => pure (.Caller, bs)
  | _ => .error .UnknownOperandTag

/-- Embedding of `Output`: no output, one register, or many registers. -/
inductive Output where
  | Single (r : Register)
  | Multiple (rs : List Register)
  | None
deriving DecidableEq, Repr

/-- Embedding of the `Instruction` struct: opcode, optional operand list,
and output shape. -/
structure Instruction where
  opcode : Opcode
  operands : Option (List Operand)
  output : Output
deriving DecidableEq, Repr

/-- Sequential decoding of `n` operands in positional order (the iterator
body of `read_operands`). -/
def readOperandList (bs : List Byte) :
    (n : Nat) → Except FormatError (List Operand × List Byte)
  | 0 => .ok ([], bs)
  | n + 1 => do
    let (o, bs') ← Operand.read bs
    let (os, bs'') ← readOperandList bs' n
    pure (o :: os, bs'')

/-- Sequential decoding of `n` registers in positional order (the iterator
body of the `Call` output loop). -/
def readRegisterList (bs : List Byte) :
    (n : Nat) → Except FormatError (List Register × List Byte)
  | 0 => .ok ([], bs)
  | n + 1 => do
    let (r, bs') ← Register.read bs
    let (rs, bs'') ← readRegisterList bs' n
    pure (r :: rs, bs'')

/-- Embedding of `Instruction::read_operands`: `None` when `n == 0`, else
`Some` of exactly `n` operands. -/
def Instruction.read_operands (bs : List Byte) (n : Nat) :
    Except FormatError (Option (List Operand) × List Byte) :=
  if n = 0 then .ok (none, bs)
  else do
    let (os, bs) ← readOperandList bs n
    pure (some os, bs)

/-- The callee-resolution step of `read_call_instruction` (the `let callee =
match { ... }` block): discriminant 1 is Internal, anything else External. -/
def readCallee (bs : List Byte) :
    Except FormatError (Locator × List Byte) := do
  let (kind, bs) ← readU8 bs
  match kind with
  | 1 => do
    let (s, bs) ← read_identifier bs
    pure (.Internal s, bs)
  | _ => do
    let (t, bs) ← read_locator bs
    pure (.External t, bs)

/-- Embedding of `Instruction::read_call_instruction`.  The parsed `callee`
binding is dropped by the source, exactly as here: the constructed
`Instruction` records only the opcode, operands and output. -/
def Instruction.read_call_instruction (bs : List Byte) :
    Except FormatError (Instruction × List Byte) := do
  let (_callee, bs) ← readCallee bs
  let (num_inputs, bs) ← readU8 bs
  let (operands, bs) ← Instruction.read_operands bs num_inputs
  let (num_outputs, bs) ← readU8 bs
  let (outs, bs) ← readRegisterList bs num_outputs
  pure (⟨.Call, operands, .Multiple outs⟩, bs)

/-- Embedding of `Instruction::read_assert_instruction`. -/
def Instruction.read_assert_instruction (bs : List Byte) (opcode : Opcode) :
    Except FormatError (Instruction × List Byte) := do
  let (operands, bs) ← Instruction.read_operands bs 2
  pure (⟨opcode, operands, .None⟩, bs)

/-- Embedding of `Instruction::read_ternary_instruction`. -/
def Instruction.read_ternary_instruction (bs : List Byte) (opcode : Opcode) :
    Except FormatError (Instruction × List Byte) := do
  let (operands, bs) ← Instruction.read_operands bs 3
  let (r, bs) ← Register.read bs
  pure (⟨opcode, operands, .Single r⟩, bs)

/-- Embedding of `Instruction::read_unary_instruction`. -/
def Instruction.read_unary_instruction (bs : List Byte) (opcode : Opcode) :
    Except FormatError (Instruction × List Byte) := do
  let (operands, bs) ← Instruction.read_operands bs 1
  let (r, bs) ← Register.read bs
  pure (⟨opcode, operands, .Single r⟩, bs)

/-- Embedding of `Instruction::read_binary_instruction`. -/
def Instruction.read_binary_instruction (bs : List Byte) (opcode : Opcode) :
    Except FormatError (Instruction × List Byte) := do
  let (operands, bs) ← Instruction.read_operands bs 2
  let (r, bs) ← Register.read bs
  pure (⟨opcode, operands, .Single r⟩, bs)

/-- Embedding of `Instruction::read`: resolve the 16-bit tag, then dispatch
on the opcode; the source's match arms (two constructor arms followed by
three guard arms and the `unreachable!()` fall-through) are rendered as the
same ordered chain of tests. -/
def Instruction.read (bs : List Byte) :
    Except FormatError (Instruction × List Byte) := do
  let (tag, bs) ← readU16 bs
  let opcode ← Opcode.fromU16 tag
  if opcode = .Call then Instruction.read_call_instruction bs
  else if opcode = .Ternary then Instruction.read_ternary_instruction bs opcode
  else if opcode ∈ ASSERT then Instruction.read_assert_instruction bs opcode
  else if opcode ∈ UNARY then Instruction.read_unary_instruction bs opcode
  else if opcode ∈ BINARY then Instruction.read_binary_instruction bs opcode
  else .error .InvariantViolation

/-- Sequential decoding of `n` instructions in order (the iterator body of
`read_instructions`); the first failure propagates. -/
def Instruction.readList (bs : List Byte) :
    (n : Nat) → Except FormatError (List Instruction × List Byte)
  | 0 => .ok ([], bs)
  | n + 1 => do
    let (i, bs') ← Instruction.read bs
    let (is, bs'') ← Instruction.readList bs' n
    pure (i :: is, bs'')

/-- Embedding of `Instruction::read_instructions`: a 32-bit count followed
by that many instructions. -/
def Instruction.read_instructions (bs : List Byte) :
    Except FormatError ((Nat × List Instruction) × List Byte) := do
  let (num, bs) ← readU32 bs
  let (instructions, bs) ← Instruction.readList bs num
  pure ((num, instructions), bs)

/-!
## Spec-side encoders

The byte-stream grammar of spec section 6, written as encoders.  The
repository has no encoder (encoding is a declared non-goal), so these
follow the spec's grammar words; the roundtrip theorems below compare the
source-derived decoder against them.
-/

/-- Modelled from the spec: the two-byte little-endian encoding of a
16-bit tag. -/
def encodeU16 (t : Nat) : List Byte := [t % 256, t / 256]

/-- Modelled from the spec: the four-byte little-endian encoding of a
32-bit count. -/
def encodeU32 (t : Nat) : List Byte :=
  [t % 256, t / 256 % 256, t / 65536 % 256, t / 16777216]

/-- Modelled from the spec: the length-prefixed span of a literal. -/
def encodeLiteral (l : Literal) : List Byte :=
  l.payload.length :: l.payload

/-- Modelled from the spec: the length-prefixed span of a register. -/
def encodeRegister (r : Register) : List Byte :=
  r.payload.length :: r.payload

/-- Modelled from the spec: the length-prefixed encoding of an identifier
string. -/
def encodeIdentifier (s : String) : List Byte :=
  s.data.length :: s.data.map Char.toNat

/-- Modelled from the spec: the three-identifier encoding of an external
locator. -/
def encodeLocator (t : String × String × String) : List Byte :=
  encodeIdentifier t.1 ++ encodeIdentifier t.2.1 ++ encodeIdentifier t.2.2

/-- Whether an operand is producible by the decoder (and hence encodable by
the spec grammar): a `ProgramId` operand is always in the external form. -/
def Operand.encodable : Operand → Bool
  | .ProgramId (.Internal _) => false
  | _ => true

/-- Modelled from the spec: the tag-byte-plus-payload encoding of an
operand (grammar `Operand := u8:tag OperandPayload(tag)`). -/
def encodeOperand : Operand → List Byte
  | .Literal l => 0 :: encodeLiteral l
  | .Register r => 1 :: encodeRegister r
  | .ProgramId (.External t) => 2 :: encodeLocator t
  | .ProgramId (.Internal _) => []
  | .Caller => [3]

/-- Modelled from the spec: positional encoding of an operand sequence. -/
def encodeOperandList : List Operand → List Byte
  | [] => []
  | o :: os => encodeOperand o ++ encodeOperandList os

/-- Modelled from the spec: positional encoding of a register sequence. -/
def encodeRegisterList : List Register → List Byte
  | [] => []
  | r :: rs => encodeRegister r ++ encodeRegisterList rs

/-!
## Helper lemmas
-/

theorem readBytes_append (p rest : List Byte) :
    readBytes p.length (p ++ rest) = .ok (p, rest) := by
  simp [readBytes, List.take_left, List.drop_left]

theorem readU16_encode (t : Nat) (rest : List Byte) :
    readU16 (encodeU16 t ++ rest) = .ok (t, rest) := by
  simp [readU16, encodeU16, readU8, bind, Except.bind, pure, Except.pure]
  omega

theorem readU32_encode (t : Nat) (rest : List Byte) :
    readU32 (encodeU32 t ++ rest) = .ok (t, rest) := by
  simp [readU32, encodeU32, readU8, bind, Except.bind, pure, Except.pure]
  omega

theorem literal_read_encode (l : Literal) (rest : List Byte) :
    Literal.read (encodeLiteral l ++ rest) = .ok (l, rest) := by
  simp [Literal.read, encodeLiteral, readU8, readBytes_append, bind,
    Except.bind, pure, Except.pure]

theorem register_read_encode (r : Register) (rest : List Byte) :
    Register.read (encodeRegister r ++ rest) = .ok (r, rest) := by
  simp [Register.read, encodeRegister, readU8, readBytes_append, bind,
    Except.bind, pure, Except.pure]

theorem map_ofNat_toNat (l : List Char) :
    l.map (fun c => Char.ofNat c.toNat) = l := by
  induction l with
  | nil => rfl
  | cons c cs ih => simp [Char.ofNat_toNat, ih]

theorem read_identifier_encode (s : String) (rest : List Byte) :
    read_identifier (encodeIdentifier s ++ rest) = .ok (s, rest) := by
  have hbytes := readBytes_append (s.data.map Char.toNat) rest
  simp only [List.length_map] at hbytes
  simp only [read_identifier, encodeIdentifier, List.cons_append, readU8,
    bind, Except.bind, hbytes, List.map_map, pure, Except.pure]
  simp only [Function.comp_def, map_ofNat_toNat]

theorem read_locator_encode (t : String × String × String)
    (rest : List Byte) :
    read_locator (encodeLocator t ++ rest) = .ok (t, rest) := by
  simp [read_locator, encodeLocator, List.append_assoc,
    read_identifier_encode, bind, Except.bind, pure, Except.pure]

theorem except_bind_ok {ε α β : Type} (e : Except ε α) (f : α → Except ε β)
    (b : β) (h : (e >>= f) = .ok b) : ∃ a, e = .ok a ∧ f a = .ok b := by
  cases e with
  | error err => simp [bind, Except.bind] at h
  | ok a => exact ⟨a, rfl, by simpa [bind, Except.bind] using h⟩

theorem operand_read_encode (o : Operand) (h : o.encodable = true)
    (rest : List Byte) :
    Operand.read (encodeOperand o ++ rest) = .ok (o, rest) := by
  cases o with
  | Literal l =>
    simp [Operand.read, encodeOperand, readU8, bind, Except.bind,
      literal_read_encode, pure, Except.pure]
  | Register r =>
    simp [Operand.read, encodeOperand, readU8, bind, Except.bind,
      register_read_encode, pure, Except.pure]
  | ProgramId loc =>
    cases loc with
    | Internal s => simp [Operand.encodable] at h
    | External t =>
      simp [Operand.read, encodeOperand, readU8, bind, Except.bind,
        read_locator_encode, pure, Except.pure]
  | Caller =>
    simp [Operand.read, encodeOperand, readU8, bind, Except.bind, pure,
      Except.pure]

theorem readOperandList_encode (ops : List Operand)
    (h : ∀ o ∈ ops, o.encodable = true) (rest : List Byte) :
    readOperandList (encodeOperandList ops ++ rest) ops.length =
      .ok (ops, rest) := by
  induction ops generalizing rest with
  | nil => rfl
  | cons o os ih =>
    have ho : o.encodable = true := h o (by simp)
    have hos : ∀ x ∈ os, x.encodable = true := fun x hx => h x (by simp [hx])
    simp [readOperandList, encodeOperandList, List.append_assoc,
      operand_read_encode o ho, bind, Except.bind, ih hos, pure, Except.pure]

theorem readRegisterList_encode (rs : List Register) (rest : List Byte) :
    readRegisterList (encodeRegisterList rs ++ rest) rs.length =
      .ok (rs, rest) := by
  induction rs generalizing rest with
  | nil => rfl
  | cons r more ih =>
    simp [readRegisterList, encodeRegisterList, List.append_assoc,
      register_read_encode, bind, Except.bind, ih, pure, Except.pure]

theorem readOperandList_length (n : Nat) :
    ∀ (bs rest : List Byte) (os : List Operand),
      readOperandList bs n = .ok (os, rest) → os.length = n := by
  induction n with
  | zero =>
    intro bs rest os h
    simp [readOperandList] at h
    simp [h.1]
  | succ n ih =>
    intro bs rest os h
    rw [readOperandList] at h
    obtain ⟨p, hp, h⟩ := except_bind_ok _ _ _ h
    obtain ⟨o1, bs1⟩ := p
    obtain ⟨q, hq, h⟩ := except_bind_ok _ _ _ h
    obtain ⟨os1, bs2⟩ := q
    simp [pure, Except.pure] at h
    rw [← h.1]
    simp [ih bs1 bs2 os1 hq]

theorem Instruction.readList_length (n : Nat) :
    ∀ (bs rest : List Byte) (is : List Instruction),
      Instruction.readList bs n = .ok (is, rest) → is.length = n := by
  induction n with
  | zero =>
    intro bs rest is h
    simp [Instruction.readList] at h
    simp [h.1]
  | succ n ih =>
    intro bs rest is h
    rw [Instruction.readList] at h
    obtain ⟨p, hp, h⟩ := except_bind_ok _ _ _ h
    obtain ⟨i1, bs1⟩ := p
    obtain ⟨q, hq, h⟩ := except_bind_ok _ _ _ h
    obtain ⟨is1, bs2⟩ := q
    simp [pure, Except.pure] at h
    rw [← h.1]
    simp [ih bs1 bs2 is1 hq]

theorem fromU16_tag : ∀ o : Opcode, Opcode.fromU16 o.tag = .ok o := by
  decide

theorem Instruction.read_tag (o : Opcode) (body : List Byte) :
    Instruction.read (encodeU16 o.tag ++ body) =
      (if o = .Call then Instruction.read_call_instruction body
       else if o = .Ternary then Instruction.read_ternary_instruction body o
       else if o ∈ ASSERT then Instruction.read_assert_instruction body o
       else if o ∈ UNARY then Instruction.read_unary_instruction body o
       else if o ∈ BINARY then Instruction.read_binary_instruction body o
       else .error .InvariantViolation) := by
  simp [Instruction.read, readU16_encode, fromU16_tag o, bind, Except.bind]

theorem unary_mem_facts :
    ∀ o : Opcode, o ∈ UNARY → o ≠ .Call ∧ o ≠ .Ternary ∧ o ∉ ASSERT := by
  decide

theorem binary_mem_facts :
    ∀ o : Opcode,
      o ∈ BINARY → o ≠ .Call ∧ o ≠ .Ternary ∧ o ∉ ASSERT ∧ o ∉ UNARY := by
  decide

theorem assert_mem_facts :
    ∀ o : Opcode, o ∈ ASSERT → o ≠ .Call ∧ o ≠ .Ternary := by
  decide

theorem read_operands_encode (ops : List Operand)
    (h : ∀ o ∈ ops, o.encodable = true) (rest : List Byte) :
    Instruction.read_operands (encodeOperandList ops ++ rest) ops.length =
      .ok (if ops.length = 0 then none else some ops, rest) := by
  cases ops with
  | nil => rfl
  | cons o os =>
    have h1 := readOperandList_encode (o :: os) h rest
    simp only [List.length_cons] at h1
    simp [Instruction.read_operands, h1, bind, Except.bind, pure,
      Except.pure]

theorem read_unary_encode (o : Opcode) (a : Operand)
    (ha : a.encodable = true) (r : Register) (rest : List Byte) :
    Instruction.read_unary_instruction
        (encodeOperandList [a] ++ (encodeRegister r ++ rest)) o =
      .ok (⟨o, some [a], .Single r⟩, rest) := by
  have h1 := read_operands_encode [a] (by simpa using ha)
    (encodeRegister r ++ rest)
  simp at h1
  simp [Instruction.read_unary_instruction, h1, bind, Except.bind,
    register_read_encode, pure, Except.pure]

theorem read_binary_encode (o : Opcode) (a b : Operand)
    (ha : a.encodable = true) (hb : b.encodable = true) (r : Register)
    (rest : List Byte) :
    Instruction.read_binary_instruction
        (encodeOperandList [a, b] ++ (encodeRegister r ++ rest)) o =
      .ok (⟨o, some [a, b], .Single r⟩, rest) := by
  have h1 := read_operands_encode [a, b] (by simp [ha, hb])
    (encodeRegister r ++ rest)
  simp at h1
  simp [Instruction.read_binary_instruction, h1, bind, Except.bind,
    register_read_encode, pure, Except.pure]

theorem read_ternary_encode (o : Opcode) (a b c : Operand)
    (ha : a.encodable = true) (hb : b.encodable = true)
    (hc : c.encodable = true) (r : Register) (rest : List Byte) :
    Instruction.read_ternary_instruction
        (encodeOperandList [a, b, c] ++ (encodeRegister r ++ rest)) o =
      .ok (⟨o, some [a, b, c], .Single r⟩, rest) := by
  have h1 := read_operands_encode [a, b, c] (by simp [ha, hb, hc])
    (encodeRegister r ++ rest)
  simp at h1
  simp [Instruction.read_ternary_instruction, h1, bind, Except.bind,
    register_read_encode, pure, Except.pure]

theorem read_assert_encode (o : Opcode) (a b : Operand)
    (ha : a.encodable = true) (hb : b.encodable = true)
    (rest : List Byte) :
    Instruction.read_assert_instruction
        (encodeOperandList [a, b] ++ rest) o =
      .ok (⟨o, some [a, b], .None⟩, rest) := by
  have h1 := read_operands_encode [a, b] (by simp [ha, hb]) rest
  simp at h1
  simp [Instruction.read_assert_instruction, h1, bind, Except.bind, pure,
    Except.pure]

theorem readCallee_internal (s : String) (rest : List Byte) :
    readCallee (1 :: (encodeIdentifier s ++ rest)) =
      .ok (.Internal s, rest) := by
  simp [readCallee, readU8, read_identifier_encode, bind, Except.bind,
    pure, Except.pure]

theorem readCallee_external (kind : Byte) (hk : kind ≠ 1)
    (t : String × String × String) (rest : List Byte) :
    readCallee (kind :: (encodeLocator t ++ rest)) =
      .ok (.External t, rest) := by
  rcases kind with _ | _ | m
  · simp [readCallee, readU8, read_locator_encode, bind, Except.bind,
      pure, Except.pure]
  · exact absurd rfl hk
  · simp [readCallee, readU8, read_locator_encode, bind, Except.bind,
      pure, Except.pure]

theorem read_call_encode_internal (s : String) (ops : List Operand)
    (hops : ∀ o ∈ ops, o.encodable = true) (outs : List Register)
    (rest : List Byte) :
    Instruction.read_call_instruction
        (1 :: (encodeIdentifier s ++ (ops.length ::
          (encodeOperandList ops ++ (outs.length ::
            (encodeRegisterList outs ++ rest)))))) =
      .ok (⟨.Call, if ops.length = 0 then none else some ops,
            .Multiple outs⟩, rest) := by
  have h1 := readCallee_internal s (ops.length ::
    (encodeOperandList ops ++ (outs.length ::
      (encodeRegisterList outs ++ rest))))
  have h2 := read_operands_encode ops hops (outs.length ::
    (encodeRegisterList outs ++ rest))
  have h3 := readRegisterList_encode outs rest
  simp [Instruction.read_call_instruction, h1, h2, h3, readU8, bind,
    Except.bind, pure, Except.pure]

theorem read_operands_pos (bs rest : List Byte) (n : Nat) (hn : n ≠ 0)
    (res : Option (List Operand))
    (h : Instruction.read_operands bs n = .ok (res, rest)) :
    ∃ l, res = some l ∧ l.length = n := by
  rw [Instruction.read_operands, if_neg hn] at h
  obtain ⟨q, hq, h⟩ := except_bind_ok _ _ _ h
  obtain ⟨os, bs2⟩ := q
  simp [pure, Except.pure] at h
  exact ⟨os, h.1.symm, readOperandList_length n bs bs2 os hq⟩

theorem read_call_result (bs rest : List Byte) (i : Instruction)
    (h : Instruction.read_call_instruction bs = .ok (i, rest)) :
    i.opcode = .Call := by
  rw [Instruction.read_call_instruction] at h
  obtain ⟨p1, h1, h⟩ := except_bind_ok _ _ _ h
  obtain ⟨c, bs1⟩ := p1
  obtain ⟨p2, h2, h⟩ := except_bind_ok _ _ _ h
  obtain ⟨k, bs2⟩ := p2
  obtain ⟨p3, h3, h⟩ := except_bind_ok _ _ _ h
  obtain ⟨ops, bs3⟩ := p3
  obtain ⟨p4, h4, h⟩ := except_bind_ok _ _ _ h
  obtain ⟨m, bs4⟩ := p4
  obtain ⟨p5, h5, h⟩ := except_bind_ok _ _ _ h
  obtain ⟨outs, bs5⟩ := p5
  simp [pure, Except.pure] at h
  rw [← h.1]

theorem read_unary_result (bs rest : List Byte) (o : Opcode)
    (i : Instruction)
    (h : Instruction.read_unary_instruction bs o = .ok (i, rest)) :
    i.opcode = o ∧ i.operands.isSome = true := by
  rw [Instruction.read_unary_instruction] at h
  obtain ⟨p1, h1, h⟩ := except_bind_ok _ _ _ h
  obtain ⟨ops, bs1⟩ := p1
  obtain ⟨p2, h2, h⟩ := except_bind_ok _ _ _ h
  obtain ⟨r, bs2⟩ := p2
  simp [pure, Except.pure] at h
  obtain ⟨l, hl, -⟩ := read_operands_pos bs bs1 1 (by decide) ops h1
  rw [← h.1]
  simp [hl]

theorem read_binary_result (bs rest : List Byte) (o : Opcode)
    (i : Instruction)
    (h : Instruction.read_binary_instruction bs o = .ok (i, rest)) :
    i.opcode = o ∧ i.operands.isSome = true := by
  rw [Instruction.read_binary_instruction] at h
  obtain ⟨p1, h1, h⟩ := except_bind_ok _ _ _ h
  obtain ⟨ops, bs1⟩ := p1
  obtain ⟨p2, h2, h⟩ := except_bind_ok _ _ _ h
  obtain ⟨r, bs2⟩ := p2
  simp [pure, Except.pure] at h
  obtain ⟨l, hl, -⟩ := read_operands_pos bs bs1 2 (by decide) ops h1
  rw [← h.1]
  simp [hl]

theorem read_ternary_result (bs rest : List Byte) (o : Opcode)
    (i : Instruction)
    (h : Instruction.read_ternary_instruction bs o = .ok (i, rest)) :
    i.opcode = o ∧ i.operands.isSome = true := by
  rw [Instruction.read_ternary_instruction] at h
  obtain ⟨p1, h1, h⟩ := except_bind_ok _ _ _ h
  obtain ⟨ops, bs1⟩ := p1
  obtain ⟨p2, h2, h⟩ := except_bind_ok _ _ _ h
  obtain ⟨r, bs2⟩ := p2
  simp [pure, Except.pure] at h
  obtain ⟨l, hl, -⟩ := read_operands_pos bs bs1 3 (by decide) ops h1
  rw [← h.1]
  simp [hl]

theorem read_assert_result (bs rest : List Byte) (o : Opcode)
    (i : Instruction)
    (h : Instruction.read_assert_instruction bs o = .ok (i, rest)) :
    i.opcode = o ∧ i.operands.isSome = true := by
  rw [Instruction.read_assert_instruction] at h
  obtain ⟨p1, h1, h⟩ := except_bind_ok _ _ _ h
  obtain ⟨ops, bs1⟩ := p1
  simp [pure, Except.pure] at h
  obtain ⟨l, hl, -⟩ := read_operands_pos bs bs1 2 (by decide) ops h1
  rw [← h.1]
  simp [hl]

theorem fromU16_default (m : Nat) :
    Opcode.fromU16 (m + 56) = .error .UnknownOpcode := rfl

/-!
## Claim theorems
-/

/-- C1: the four explicit classification slices together with the special
cases `Ternary` and `Call` are pairwise disjoint, but their union is NOT
the full 56-opcode set: `Cast` (produced by the opcode table at tag 8)
belongs to no shape, so the catch-all arm of `Instruction::read` (the
source's `unreachable!()`) IS reached on the two-byte input `[8, 0]`. -/
theorem c1_classification_partition_gap :
    (∀ o : Opcode, o ∈ UNARY →
        o ∉ BINARY ∧ o ∉ ASSERT ∧ o ≠ .Ternary ∧ o ≠ .Call) ∧
    (∀ o : Opcode, o ∈ BINARY → o ∉ ASSERT ∧ o ≠ .Ternary ∧ o ≠ .Call) ∧
    (∀ o : Opcode, o ∈ ASSERT → o ≠ .Ternary ∧ o ≠ .Call) ∧
    (Opcode.Cast ∉ UNARY ∧ Opcode.Cast ∉ BINARY ∧ Opcode.Cast ∉ ASSERT ∧
      Opcode.Cast ≠ .Ternary ∧ Opcode.Cast ≠ .Call) ∧
    Opcode.fromU16 8 = .ok .Cast ∧
    Instruction.read [8, 0] = .error .InvariantViolation := by
  decide

/-- C1 witness: each universally quantified disjointness conjunct applied
at a concrete opcode. -/
theorem c1_witness :
    Opcode.Abs ∉ BINARY ∧ Opcode.Abs ∉ ASSERT ∧ Opcode.Abs ≠ .Ternary ∧
      Opcode.Abs ≠ .Call :=
  c1_classification_partition_gap.1 .Abs (by decide)

/-- C2: every tag in `[0,55]` resolves to the opcode at that fixed-table
index, the tag-to-opcode mapping is injective and surjective on that
range, and every tag greater than 55 is the fatal `UnknownOpcode` decode
error. -/
theorem c2_opcode_table_bijection :
    (∀ t : Fin 56, ∃ o : Opcode,
        Opcode.fromU16 t.val = .ok o ∧ opcodeTable.get? t.val = some o) ∧
    (∀ s t : Fin 56, Opcode.fromU16 s.val = Opcode.fromU16 t.val → s = t) ∧
    (∀ o : Opcode, ∃ t : Fin 56, Opcode.fromU16 t.val = .ok o) ∧
    (∀ t : Nat, 55 < t → Opcode.fromU16 t = .error .UnknownOpcode) := by
  refine ⟨by decide, by decide, by decide, ?_⟩
  intro t ht
  have h56 : t - 56 + 56 = t := by omega
  rw [← h56]
  exact fromU16_default (t - 56)

/-- C2 witness: the tag one past the table (56) and the largest 16-bit tag
are both fatal decode errors; tag 2 resolves to `Add` at index 2. -/
theorem c2_witness :
    Opcode.fromU16 56 = .error .UnknownOpcode ∧
    Opcode.fromU16 65535 = .error .UnknownOpcode ∧
    ∃ o : Opcode, Opcode.fromU16 (2 : Fin 56).val = .ok o ∧
      opcodeTable.get? (2 : Fin 56).val = some o :=
  ⟨c2_opcode_table_bijection.2.2.2 56 (by decide),
   c2_opcode_table_bijection.2.2.2 65535 (by decide),
   c2_opcode_table_bijection.1 2⟩

/-- C9 counterexample: the claim's binary-set size of 33 is wrong; the
`BINARY` slice of the source has 34 entries. -/
theorem c9_counterexample :
    ¬ (UNARY.length = 17 ∧ BINARY.length = 33) := by
  decide

/-- C9 (amended): the `UNARY` slice names exactly 17 distinct opcodes and
the `BINARY` slice exactly 34 distinct opcodes. -/
theorem c9_classification_sizes :
    UNARY.length = 17 ∧ BINARY.length = 34 ∧
    UNARY.Nodup ∧ BINARY.Nodup := by
  decide

/-- The `Call` byte fixture of the spec's testable properties: tag 7,
locator kind 1, identifier "foo" (bytes 102 111 111), input count 2, two
literal operands (payloads `[42]` and `[43]`), output count 1, one
register (payload `[5]`). -/
def fixtureFoo : List Byte :=
  [7, 0, 1, 3, 102, 111, 111, 2, 0, 1, 42, 0, 1, 43, 1, 1, 5]

/-- The same fixture with the callee identifier "bar" (bytes 98 97 114)
in place of "foo". -/
def fixtureBar : List Byte :=
  [7, 0, 1, 3, 98, 97, 114, 2, 0, 1, 42, 0, 1, 43, 1, 1, 5]

/-- C8 counterexample: the decoded `Instruction` does not carry the callee
locator at all — the fixture with callee "foo" and the fixture with callee
"bar" decode to the very same `Instruction` value, so the claim that
decoding "yields an Instruction with a resolved Internal locator \x22foo\x22"
is false as stated. -/
theorem c8_counterexample :
    Instruction.read fixtureFoo = Instruction.read fixtureBar ∧
    Instruction.read fixtureFoo =
      .ok (⟨.Call, some [.Literal ⟨[42]⟩, .Literal ⟨[43]⟩],
            .Multiple [⟨[5]⟩]⟩, []) := by
  decide

/-- C8 (amended): decoding the `Call` fixture resolves the callee-locator
step to `Internal "foo"` while parsing, and yields an `Instruction` with
opcode `Call`, the two literal operands, and a `Multiple` output holding
the single register; the resolved locator is discarded, not stored in the
`Instruction`. -/
theorem c8_call_fixture :
    readCallee [1, 3, 102, 111, 111] = .ok (.Internal "foo", []) ∧
    Instruction.read fixtureFoo =
      .ok (⟨.Call, some [.Literal ⟨[42]⟩, .Literal ⟨[43]⟩],
            .Multiple [⟨[5]⟩]⟩, []) := by
  decide

/-- C10 counterexample: a `Call` instruction with input count 0 is a
perfectly decodable input, and it produces an `Instruction` whose
`operands` field is `None` — the absent-operands case IS reachable. -/
theorem c10_counterexample :
    Instruction.read [7, 0, 1, 0, 0, 0] =
      .ok (⟨.Call, none, .Multiple []⟩, []) := by
  decide

/-- C3: decoding a `Call` instruction reads, in order, one locator-kind
byte (1 resolving an Internal identifier, any other value an External
three-part locator), then a one-byte input count followed by exactly that
many operands, then a one-byte output count followed by exactly that many
registers as the output set. -/
theorem c3_call_decode_order
    (s : String) (t : String × String × String) (kind : Byte)
    (ops : List Operand) (outs : List Register) (rest : List Byte)
    (hops : ∀ o ∈ ops, o.encodable = true) (hkind : kind ≠ 1) :
    readCallee (1 :: (encodeIdentifier s ++ rest)) =
      .ok (.Internal s, rest) ∧
    readCallee (kind :: (encodeLocator t ++ rest)) =
      .ok (.External t, rest) ∧
    Instruction.read
        (encodeU16 (Opcode.tag .Call) ++ (1 :: (encodeIdentifier s ++
          (ops.length :: (encodeOperandList ops ++
            (outs.length :: (encodeRegisterList outs ++ rest))))))) =
      .ok (⟨.Call, if ops.length = 0 then none else some ops,
            .Multiple outs⟩, rest) := by
  refine ⟨readCallee_internal s rest,
    readCallee_external kind hkind t rest, ?_⟩
  rw [Instruction.read_tag, if_pos rfl]
  exact read_call_encode_internal s ops hops outs rest

/-- C3 witness: the Call decode order applied at a concrete internal
callee "f", external locator triple, one Caller operand and one output
register. -/
theorem c3_witness :
    readCallee (1 :: (encodeIdentifier "f" ++ [])) =
      .ok (.Internal "f", []) ∧
    readCallee (0 :: (encodeLocator ("a", "b", "c") ++ [])) =
      .ok (.External ("a", "b", "c"), []) ∧
    Instruction.read
        (encodeU16 (Opcode.tag .Call) ++ (1 :: (encodeIdentifier "f" ++
          ([Operand.Caller].length :: (encodeOperandList [.Caller] ++
            ([(⟨[5]⟩ : Register)].length ::
              (encodeRegisterList [⟨[5]⟩] ++ []))))))) =
      .ok (⟨.Call, if [Operand.Caller].length = 0 then none
              else some [.Caller], .Multiple [⟨[5]⟩]⟩, []) :=
  c3_call_decode_order "f" ("a", "b", "c") 0 [.Caller] [⟨[5]⟩] []
    (by decide) (by decide)

/-- C4: `Operand::read` reads one discriminant byte; 0 yields a Literal,
1 a Register, 2 an External three-part locator, 3 the payload-less
Caller, and every other discriminant is the fatal `UnknownOperandTag`
decode error. -/
theorem c4_operand_tags
    (l : Literal) (r : Register) (t : String × String × String)
    (tag : Byte) (rest : List Byte) (htag : 3 < tag) :
    Operand.read (0 :: (encodeLiteral l ++ rest)) =
      .ok (.Literal l, rest) ∧
    Operand.read (1 :: (encodeRegister r ++ rest)) =
      .ok (.Register r, rest) ∧
    Operand.read (2 :: (encodeLocator t ++ rest)) =
      .ok (.ProgramId (.External t), rest) ∧
    Operand.read (3 :: rest) = .ok (.Caller, rest) ∧
    Operand.read (tag :: rest) = .error .UnknownOperandTag := by
  refine ⟨?_, ?_, ?_, rfl, ?_⟩
  · simpa [encodeOperand] using operand_read_encode (.Literal l) rfl rest
  · simpa [encodeOperand] using operand_read_encode (.Register r) rfl rest
  · simpa [encodeOperand] using
      operand_read_encode (.ProgramId (.External t)) rfl rest
  · have h4 : tag - 4 + 4 = tag := Nat.sub_add_cancel htag
    rw [← h4]
    rfl

/-- C4 witness: the five discriminant cases at concrete payloads, with
discriminant 4 as the out-of-range tag. -/
theorem c4_witness :
    Operand.read (0 :: (encodeLiteral ⟨[9]⟩ ++ [])) =
      .ok (.Literal ⟨[9]⟩, []) ∧
    Operand.read (1 :: (encodeRegister ⟨[8]⟩ ++ [])) =
      .ok (.Register ⟨[8]⟩, []) ∧
    Operand.read (2 :: (encodeLocator ("a", "b", "c") ++ [])) =
      .ok (.ProgramId (.External ("a", "b", "c")), []) ∧
    Operand.read (3 :: []) = .ok (.Caller, []) ∧
    Operand.read (4 :: []) = .error .UnknownOperandTag :=
  c4_operand_tags ⟨[9]⟩ ⟨[8]⟩ ("a", "b", "c") 4 [] (by decide)

/-- C5: `read_instructions` reads a 32-bit count and decodes exactly that
many instructions; the returned count always equals the length of the
returned sequence, and on a count-0 program it returns `(0, [])` having
consumed exactly the four count bytes. -/
theorem c5_read_instructions_count :
    (∀ (bs rest : List Byte) (num : Nat) (instrs : List Instruction),
        Instruction.read_instructions bs = .ok ((num, instrs), rest) →
          instrs.length = num) ∧
    (∀ rest : List Byte,
        Instruction.read_instructions (0 :: 0 :: 0 :: 0 :: rest) =
          .ok ((0, []), rest)) := by
  constructor
  · intro bs rest num instrs h
    rw [Instruction.read_instructions] at h
    obtain ⟨p, hp, h⟩ := except_bind_ok _ _ _ h
    obtain ⟨n1, bs1⟩ := p
    obtain ⟨q, hq, h⟩ := except_bind_ok _ _ _ h
    obtain ⟨is1, bs2⟩ := q
    simp [pure, Except.pure] at h
    rw [← h.1.2, ← h.1.1]
    exact Instruction.readList_length n1 bs1 bs2 is1 hq
  · intro rest
    rfl

/-- C5 witness: a one-instruction program (count 1 followed by an `Abs`
instruction) whose decoded sequence has length 1, and the count-0 program
consuming exactly its four count bytes. -/
theorem c5_witness :
    ([⟨.Abs, some [.Register ⟨[7]⟩], .Single ⟨[9]⟩⟩] :
        List Instruction).length = 1 ∧
    Instruction.read_instructions (0 :: 0 :: 0 :: 0 :: [5]) =
      .ok ((0, []), [5]) :=
  ⟨c5_read_instructions_count.1 [1, 0, 0, 0, 0, 0, 1, 1, 7, 1, 9] [] 1
      [⟨.Abs, some [.Register ⟨[7]⟩], .Single ⟨[9]⟩⟩] (by decide),
   c5_read_instructions_count.2 [5]⟩

/-- C6: under `Instruction::read`, a Ternary instruction decodes exactly
3 operands then 1 output register, an Assert instruction exactly 2
operands and no output, a Unary instruction exactly 1 operand then 1
output register, and a Binary instruction exactly 2 operands then 1
output register — operands always positioned before the output
register. -/
theorem c6_fixed_arity_shapes
    (oA oU oB : Opcode) (hA : oA ∈ ASSERT) (hU : oU ∈ UNARY)
    (hB : oB ∈ BINARY) (a b c : Operand) (ha : a.encodable = true)
    (hb : b.encodable = true) (hc : c.encodable = true) (r : Register)
    (rest : List Byte) :
    Instruction.read (encodeU16 (Opcode.tag .Ternary) ++
        (encodeOperandList [a, b, c] ++ (encodeRegister r ++ rest))) =
      .ok (⟨.Ternary, some [a, b, c], .Single r⟩, rest) ∧
    Instruction.read (encodeU16 oA.tag ++
        (encodeOperandList [a, b] ++ rest)) =
      .ok (⟨oA, some [a, b], .None⟩, rest) ∧
    Instruction.read (encodeU16 oU.tag ++
        (encodeOperandList [a] ++ (encodeRegister r ++ rest))) =
      .ok (⟨oU, some [a], .Single r⟩, rest) ∧
    Instruction.read (encodeU16 oB.tag ++
        (encodeOperandList [a, b] ++ (encodeRegister r ++ rest))) =
      .ok (⟨oB, some [a, b], .Single r⟩, rest) := by
  obtain ⟨hA1, hA2⟩ := assert_mem_facts oA hA
  obtain ⟨hU1, hU2, hU3⟩ := unary_mem_facts oU hU
  obtain ⟨hB1, hB2, hB3, hB4⟩ := binary_mem_facts oB hB
  refine ⟨?_, ?_, ?_, ?_⟩
  · rw [Instruction.read_tag,
      if_neg (show ¬(Opcode.Ternary = Opcode.Call) by decide), if_pos rfl]
    exact read_ternary_encode .Ternary a b c ha hb hc r rest
  · rw [Instruction.read_tag, if_neg hA1, if_neg hA2, if_pos hA]
    exact read_assert_encode oA a b ha hb rest
  · rw [Instruction.read_tag, if_neg hU1, if_neg hU2, if_neg hU3,
      if_pos hU]
    exact read_unary_encode oU a ha r rest
  · rw [Instruction.read_tag, if_neg hB1, if_neg hB2, if_neg hB3,
      if_neg hB4, if_pos hB]
    exact read_binary_encode oB a b ha hb r rest

/-- C6 witness: the unary conjunct applied at `Abs` with one Caller
operand and a concrete output register. -/
theorem c6_witness :
    Instruction.read (encodeU16 (Opcode.tag .Abs) ++
        (encodeOperandList [.Caller] ++ (encodeRegister ⟨[2]⟩ ++ []))) =
      .ok (⟨.Abs, some [.Caller], .Single ⟨[2]⟩⟩, []) :=
  (c6_fixed_arity_shapes .AssertEq .Abs .Add (by decide) (by decide)
    (by decide) .Caller .Caller .Caller rfl rfl rfl ⟨[2]⟩ []).2.2.1

/-- C7: `read_operands` with `n = 0` returns the absent-sequence marker
`none` without touching the cursor; with `n > 0` it returns `some` of
exactly `n` operands, consumed from the cursor in positional order. -/
theorem c7_read_operands
    (bs rest : List Byte) (n : Nat) (res : Option (List Operand))
    (ops : List Operand) (hn : 0 < n)
    (h : Instruction.read_operands bs n = .ok (res, rest))
    (hops : ∀ o ∈ ops, o.encodable = true) (hne : ops ≠ []) :
    Instruction.read_operands bs 0 = .ok (none, bs) ∧
    (∃ l, res = some l ∧ l.length = n) ∧
    Instruction.read_operands (encodeOperandList ops ++ rest)
        ops.length = .ok (some ops, rest) := by
  refine ⟨rfl, read_operands_pos bs rest n hn.ne' res h, ?_⟩
  have h1 := read_operands_encode ops hops rest
  rw [if_neg (by simpa using hne)] at h1
  exact h1

/-- C7 witness: the three conjuncts at `n = 1` over a single Caller
operand. -/
theorem c7_witness :
    Instruction.read_operands [3] 0 = .ok (none, [3]) ∧
    (∃ l, (some [Operand.Caller] : Option (List Operand)) = some l ∧
      l.length = 1) ∧
    Instruction.read_operands (encodeOperandList [.Caller] ++ [])
        [Operand.Caller].length = .ok (some [.Caller], []) :=
  c7_read_operands [3] [] 1 (some [.Caller]) [.Caller] (by decide)
    (by decide) (by decide) (by decide)

/-- C10 (amended): every decoded instruction whose opcode is not `Call`
carries a present (`some`) operand list; only the data-dependent `Call`
shape can produce an absent list. -/
theorem c10_non_call_operands_present (bs rest : List Byte)
    (i : Instruction) (h : Instruction.read bs = .ok (i, rest))
    (hc : i.opcode ≠ .Call) : i.operands.isSome = true := by
  rw [Instruction.read] at h
  cases hu : readU16 bs with
  | error e =>
    rw [hu] at h
    simp [bind, Except.bind] at h
  | ok p =>
    obtain ⟨tag, bs1⟩ := p
    rw [hu] at h
    simp only [bind, Except.bind] at h
    cases ho : Opcode.fromU16 tag with
    | error e =>
      rw [ho] at h
      simp at h
    | ok o =>
      rw [ho] at h
      simp only at h
      by_cases h1 : o = Opcode.Call
      · rw [if_pos h1] at h
        exact absurd (read_call_result _ _ _ h) hc
      · rw [if_neg h1] at h
        by_cases h2 : o = Opcode.Ternary
        · rw [if_pos h2] at h
          exact (read_ternary_result _ _ _ _ h).2
        · rw [if_neg h2] at h
          by_cases h3 : o ∈ ASSERT
          · rw [if_pos h3] at h
            exact (read_assert_result _ _ _ _ h).2
          · rw [if_neg h3] at h
            by_cases h4 : o ∈ UNARY
            · rw [if_pos h4] at h
              exact (read_unary_result _ _ _ _ h).2
            · rw [if_neg h4] at h
              by_cases h5 : o ∈ BINARY
              · rw [if_pos h5] at h
                exact (read_binary_result _ _ _ _ h).2
              · rw [if_neg h5] at h
                simp at h

/-- C10 witness: the amended invariant applied at a decoded `Abs`
instruction. -/
theorem c10_witness :
    (Instruction.mk .Abs (some [.Register ⟨[7]⟩])
        (.Single ⟨[9]⟩)).operands.isSome = true :=
  c10_non_call_operands_present [0, 0, 1, 1, 7, 1, 9] []
    ⟨.Abs, some [.Register ⟨[7]⟩], .Single ⟨[9]⟩⟩ (by decide) (by decide)

end Aleopath
